import Mathlib

/-!
Shallow embedding of `src/main.js` of the datalist-autocomplete-ajax
repository: the `CacheManagement` class (a JS `Set` of strings kept sorted,
with case-insensitive prefix search), the `search` event handler that
coordinates cache lookup, remote fetch, merge and option-list rebuild, and
the `debounce` wrapper. JS strings are modelled as lists of characters
(UTF-16 code units); a JS `Set` is modelled by its insertion-ordered list
of distinct elements.
-/

/-- A JS string, modelled as its list of characters. Lexicographic
comparison of `List Char` matches the JS default sort comparator
(code-unit order). -/
abbrev JSStr := List Char

/-- Shorthand turning a Lean string literal into its model. -/
def jstr (s : String) : JSStr := s.data

/-- Insertion of one element into a JS `Set` (kept as its insertion-ordered
list of distinct elements): already-present elements are ignored, new ones
are appended. -/
def jsSetInsert (l : List JSStr) (x : JSStr) : List JSStr :=
  if x ∈ l then l else l ++ [x]

/-- `new Set(iterable)`: the insertion-ordered list of distinct elements of
`l`, keeping the first occurrence of each. -/
def jsSetOfList (l : List JSStr) : List JSStr :=
  l.foldl jsSetInsert []

/-- JS `String.prototype.toLowerCase`, character by character. -/
def jsToLower (s : JSStr) : JSStr := s.map Char.toLower

/-- JS `s.startsWith(p)`: `s` begins with the characters of `p`. -/
def jsStartsWith : JSStr → JSStr → Bool
  | _, [] => true
  | [], _ :: _ => false
  | c :: cs, p :: ps => c == p && jsStartsWith cs ps

/-- JS `String.prototype.trim`: strip whitespace from both ends. -/
def jsTrim (s : JSStr) : JSStr :=
  ((s.dropWhile Char.isWhitespace).reverse.dropWhile Char.isWhitespace).reverse

namespace CacheManagement

/-- The private `#sort` method: `this.set = new Set([...this.set].sort())`.
The JS default sort orders the strings lexicographically by code units,
modelled by insertion sort under the lexicographic order on `List Char`
(the set's elements are distinct, so any sorted permutation is this one). -/
def sortSet (set : List JSStr) : List JSStr :=
  jsSetOfList (List.insertionSort (· ≤ ·) set)

/-- `add(fetchedArray)`: `this.set = new Set([...this.set, ...fetchedArray])`
followed by `this.#sort()`. -/
def add (set fetchedArray : List JSStr) : List JSStr :=
  sortSet (jsSetOfList (set ++ fetchedArray))

/-- `search(query)`: start from `results = []` and, iterating the set in
order, push each value with
`value.toLowerCase().startsWith(query.toLowerCase())`. -/
def search (set : List JSStr) (query : JSStr) : List JSStr :=
  set.foldl
    (fun results value =>
      if jsStartsWith (jsToLower value) (jsToLower query) then results ++ [value]
      else results)
    []

end CacheManagement

/-- The state touched by the coordinator: the cache's set, the
`.error-message` element's text, and ghost counters recording how many
times `fillOptions` (the rebuild signal), the remote `fetch`, and
`cache.search` have run. -/
structure CoordState where
  cacheSet : List JSStr
  errorMessage : String
  rebuildCount : Nat
  fetchCount : Nat
  searchCount : Nat
  deriving Repr, DecidableEq

/-- What the remote endpoint does for one request: either the fetch
resolves with an ok status and the body parses as an array of strings, or
the request fails (network rejection, non-ok status, or parse error). -/
inductive FetchOutcome where
  | success (data : List JSStr)
  | failure
  deriving Repr, DecidableEq

/-- The dynamically-typed value `fetchData` resolves with: the parsed array
on the success path, or the caught `Error` object itself (the catch block
ends in `return error`). -/
inductive JSValue where
  | arr (xs : List JSStr)
  | errObj
  deriving Repr, DecidableEq

/-- `showErrorMessage(msg)`: sets the `.error-message` text to
`msg || ""`. Our messages are the non-empty literals of the source, so
this is plain assignment. -/
def showErrorMessage (st : CoordState) (msg : String) : CoordState :=
  { st with errorMessage := msg }

/-- `fetchData(searchString)`: performs the fetch; on success returns the
parsed data, on any failure (caught in its own try/catch) logs, shows the
fixed unreachable-server message and returns the caught `Error` object. -/
def fetchData (st : CoordState) (outcome : FetchOutcome) : JSValue × CoordState :=
  match outcome with
  | .success data => (JSValue.arr data, { st with fetchCount := st.fetchCount + 1 })
  | .failure =>
      (JSValue.errObj,
       showErrorMessage { st with fetchCount := st.fetchCount + 1 }
         "fetchData: The server is down or unreachable")

/-- The JS test `names.length > 0`: on an array it compares the length; on
an `Error` object, `.length` is `undefined` and `undefined > 0` evaluates
to `false`. -/
def jsLengthGtZero : JSValue → Bool
  | .arr xs => decide (0 < xs.length)
  | .errObj => false

/-- The `search` event handler: trim the input; return if empty; search
the cache (counted by the ghost `searchCount`); on a non-empty local
result return; otherwise `await fetchData`, and if `names.length > 0`
merge via `cache.add` and call `fillOptions()` (counted by
`rebuildCount`). `fetchData` never throws (its catch swallows every
exception) and the length test is total, so the handler's outer catch is
dead code in this model. -/
def search (st : CoordState) (targetValue : JSStr) (remote : FetchOutcome) : CoordState :=
  let val := jsTrim targetValue
  if val = [] then st
  else
    let st0 := { st with searchCount := st.searchCount + 1 }
    let names := CacheManagement.search st0.cacheSet val
    if 0 < names.length then st0
    else
      let res := fetchData st0 remote
      if jsLengthGtZero res.1 then
        match res.1 with
        | JSValue.arr data =>
            { res.2 with
              cacheSet := CacheManagement.add res.2.cacheSet data,
              rebuildCount := res.2.rebuildCount + 1 }
        | JSValue.errObj => res.2
      else res.2

/-- `debounce`'s closure state is one pending timer: its due time and the
captured event argument. Running the debounced function over a
time-ordered list of invocation times and arguments: each invocation first
lets a pending timer whose due time has passed fire (emitting an execution
of the wrapped handler), otherwise `clearTimeout` cancels it; then
`setTimeout(func, wait)` schedules a new timer. After the last invocation
the surviving timer fires. Returns the list of handler executions as
(time, argument) pairs. -/
def debounceRun {α : Type} (wait : Nat) :
    Option (Nat × α) → List (Nat × α) → List (Nat × α)
  | none, [] => []
  | some d, [] => [d]
  | none, (t, e) :: rest => debounceRun wait (some (t + wait, e)) rest
  | some (d, a), (t, e) :: rest =>
      if d ≤ t then (d, a) :: debounceRun wait (some (t + wait, e)) rest
      else debounceRun wait (some (t + wait, e)) rest

/-- The executions produced by a debounced handler (no timer pending
initially) over a list of invocations. -/
def debounce {α : Type} (wait : Nat) (calls : List (Nat × α)) : List (Nat × α) :=
  debounceRun wait none calls

/-- A whole session of the cache: the entries object is created empty and
mutated only by `add`; fold the calls over it. -/
def addAll (calls : List (List JSStr)) : List JSStr :=
  calls.foldl CacheManagement.add []

/-! ### Helper lemmas about the JS `Set` model -/

theorem foldl_jsSetInsert_mem (l : List JSStr) (acc : List JSStr) (x : JSStr) :
    x ∈ l.foldl jsSetInsert acc ↔ x ∈ acc ∨ x ∈ l := by
  induction l generalizing acc with
  | nil => simp
  | cons a l ih =>
      rw [List.foldl_cons, ih]
      unfold jsSetInsert
      by_cases h : a ∈ acc
      · simp only [if_pos h, List.mem_cons]
        constructor
        · rintro (hx | hx)
          · exact Or.inl hx
          · exact Or.inr (Or.inr hx)
        · rintro (hx | rfl | hx)
          · exact Or.inl hx
          · exact Or.inl h
          · exact Or.inr hx
      · simp only [if_neg h, List.mem_append, List.mem_singleton, List.mem_cons]
        tauto

theorem mem_jsSetOfList (l : List JSStr) (x : JSStr) :
    x ∈ jsSetOfList l ↔ x ∈ l := by
  rw [jsSetOfList, foldl_jsSetInsert_mem]
  simp

theorem foldl_jsSetInsert_nodup (l : List JSStr) (acc : List JSStr) (h : acc.Nodup) :
    (l.foldl jsSetInsert acc).Nodup := by
  induction l generalizing acc with
  | nil => exact h
  | cons a l ih =>
      rw [List.foldl_cons]
      unfold jsSetInsert
      by_cases ha : a ∈ acc
      · rw [if_pos ha]; exact ih acc h
      · rw [if_neg ha]
        exact ih _ (by simp [List.nodup_append, h, ha])

theorem nodup_jsSetOfList (l : List JSStr) : (jsSetOfList l).Nodup :=
  foldl_jsSetInsert_nodup l [] List.nodup_nil

theorem foldl_jsSetInsert_of_nodup (l : List JSStr) (acc : List JSStr)
    (h : (acc ++ l).Nodup) : l.foldl jsSetInsert acc = acc ++ l := by
  induction l generalizing acc with
  | nil => simp
  | cons a l ih =>
      have ha : a ∉ acc := by
        intro hmem
        have := List.disjoint_of_nodup_append h
        exact this hmem (List.mem_cons_self a l)
      rw [List.foldl_cons, jsSetInsert, if_neg ha, ih (acc ++ [a]) (by simpa using h)]
      simp

theorem jsSetOfList_of_nodup (l : List JSStr) (h : l.Nodup) : jsSetOfList l = l := by
  rw [jsSetOfList, foldl_jsSetInsert_of_nodup l [] (by simpa using h)]
  simp

/-! ### Helper lemmas about `CacheManagement.add` -/

theorem add_eq_insertionSort (s f : List JSStr) :
    CacheManagement.add s f
      = List.insertionSort (· ≤ ·) (jsSetOfList (s ++ f)) := by
  rw [CacheManagement.add, CacheManagement.sortSet]
  exact jsSetOfList_of_nodup _
    (((List.perm_insertionSort (· ≤ ·) _).nodup_iff).mpr (nodup_jsSetOfList _))

theorem add_sorted (s f : List JSStr) :
    (CacheManagement.add s f).Sorted (· ≤ ·) := by
  rw [add_eq_insertionSort]
  exact List.sorted_insertionSort (· ≤ ·) _

theorem add_nodup (s f : List JSStr) : (CacheManagement.add s f).Nodup := by
  rw [add_eq_insertionSort]
  exact ((List.perm_insertionSort (· ≤ ·) _).nodup_iff).mpr (nodup_jsSetOfList _)

theorem mem_add (s f x) :
    x ∈ CacheManagement.add s f ↔ x ∈ s ∨ x ∈ f := by
  rw [add_eq_insertionSort,
    (List.perm_insertionSort (· ≤ ·) _).mem_iff, mem_jsSetOfList, List.mem_append]

theorem sorted_nodup_ext {l₁ l₂ : List JSStr}
    (s₁ : l₁.Sorted (· ≤ ·)) (n₁ : l₁.Nodup)
    (s₂ : l₂.Sorted (· ≤ ·)) (n₂ : l₂.Nodup)
    (h : ∀ x, x ∈ l₁ ↔ x ∈ l₂) : l₁ = l₂ :=
  List.eq_of_perm_of_sorted ((List.perm_ext_iff_of_nodup n₁ n₂).mpr h) s₁ s₂

theorem foldl_add_sorted_nodup (calls : List (List JSStr)) (init : List JSStr)
    (h : init.Sorted (· ≤ ·) ∧ init.Nodup) :
    (calls.foldl CacheManagement.add init).Sorted (· ≤ ·) ∧
      (calls.foldl CacheManagement.add init).Nodup := by
  induction calls generalizing init with
  | nil => exact h
  | cons c cs ih => exact ih _ ⟨add_sorted init c, add_nodup init c⟩

theorem mem_foldl_add (calls : List (List JSStr)) (init : List JSStr) (x : JSStr) :
    x ∈ calls.foldl CacheManagement.add init ↔ x ∈ init ∨ ∃ c ∈ calls, x ∈ c := by
  induction calls generalizing init with
  | nil => simp
  | cons c cs ih =>
      rw [List.foldl_cons, ih]
      simp only [mem_add, List.mem_cons]
      constructor
      · rintro ((hx | hx) | ⟨d, hd, hx⟩)
        · exact Or.inl hx
        · exact Or.inr ⟨c, Or.inl rfl, hx⟩
        · exact Or.inr ⟨d, Or.inr hd, hx⟩
      · rintro (hx | ⟨d, rfl | hd, hx⟩)
        · exact Or.inl (Or.inl hx)
        · exact Or.inl (Or.inr hx)
        · exact Or.inr ⟨d, hd, hx⟩

/-! ### Helper lemmas about `CacheManagement.search` -/

theorem foldl_push_filter (p : JSStr → Bool) (l acc : List JSStr) :
    l.foldl (fun rs v => if p v then rs ++ [v] else rs) acc = acc ++ l.filter p := by
  induction l generalizing acc with
  | nil => simp
  | cons a l ih =>
      rw [List.foldl_cons, List.filter_cons]
      by_cases h : p a
      · rw [if_pos h, if_pos h, ih]; simp
      · rw [if_neg h, if_neg (by simpa using h), ih]

theorem search_eq_filter (set : List JSStr) (query : JSStr) :
    CacheManagement.search set query
      = set.filter (fun v => jsStartsWith (jsToLower v) (jsToLower query)) := by
  rw [CacheManagement.search, foldl_push_filter]
  simp

theorem jsStartsWith_nil (s : JSStr) : jsStartsWith s [] = true := by
  cases s <;> rfl

/-! ### Claim theorems -/

/-- C1: after any sequence of `add` calls on the initially-empty cache,
iterating the cache's entries yields values in non-decreasing
lexicographic order with no value appearing twice, the entries are exactly
the distinct strings passed across the calls, and the final contents
depend only on which strings were passed, not on how many times or in
which grouping. -/
theorem add_sequence_sorted_dedup (calls : List (List JSStr)) :
    (addAll calls).Sorted (· ≤ ·) ∧ (addAll calls).Nodup ∧
    (∀ x, x ∈ addAll calls ↔ ∃ c ∈ calls, x ∈ c) ∧
    ∀ calls' : List (List JSStr),
      (∀ x, (∃ c ∈ calls, x ∈ c) ↔ ∃ c ∈ calls', x ∈ c) →
      addAll calls = addAll calls' := by
  have hsn : ∀ cs : List (List JSStr),
      (addAll cs).Sorted (· ≤ ·) ∧ (addAll cs).Nodup := fun cs =>
    foldl_add_sorted_nodup cs [] ⟨List.sorted_nil, List.nodup_nil⟩
  have hmem : ∀ (cs : List (List JSStr)) (x : JSStr),
      x ∈ addAll cs ↔ ∃ c ∈ cs, x ∈ c := by
    intro cs x
    rw [addAll, mem_foldl_add]
    simp
  refine ⟨(hsn calls).1, (hsn calls).2, hmem calls, ?_⟩
  intro calls' h
  exact sorted_nodup_ext (hsn calls).1 (hsn calls).2 (hsn calls').1 (hsn calls').2
    (fun x => by rw [hmem, hmem]; exact h x)

/-- C1 witness at a concrete call sequence. -/
theorem add_sequence_sorted_dedup_witness :
    (addAll [[jstr "Python", jstr "C", jstr "Go"], [jstr "C"]]).Sorted (· ≤ ·) ∧
    (addAll [[jstr "Python", jstr "C", jstr "Go"], [jstr "C"]]).Nodup :=
  ⟨(add_sequence_sorted_dedup [[jstr "Python", jstr "C", jstr "Go"], [jstr "C"]]).1,
   (add_sequence_sorted_dedup [[jstr "Python", jstr "C", jstr "Go"], [jstr "C"]]).2.1⟩

/-- C10: the cache after `add` calls depends only on the set of strings
passed: from any starting cache, `add a` then `add b` equals `add b` then
`add a`, and equals a single `add` of the concatenation. -/
theorem add_order_and_grouping_irrelevant (c a b : List JSStr) :
    CacheManagement.add (CacheManagement.add c a) b
      = CacheManagement.add (CacheManagement.add c b) a ∧
    CacheManagement.add (CacheManagement.add c a) b
      = CacheManagement.add c (a ++ b) := by
  constructor
  · refine sorted_nodup_ext (add_sorted _ _) (add_nodup _ _)
      (add_sorted _ _) (add_nodup _ _) (fun x => ?_)
    simp only [mem_add]
    tauto
  · refine sorted_nodup_ext (add_sorted _ _) (add_nodup _ _)
      (add_sorted _ _) (add_nodup _ _) (fun x => ?_)
    simp only [mem_add, List.mem_append]
    tauto

/-- C2: for a non-empty query, `search` returns exactly the cache entries
whose lowercased value starts with the lowercased query, in the cache's
current iteration order (it is the order-preserving filter of the cache,
hence a sublist), and returns `[]` when nothing matches. The model's
`CacheManagement.search` is a pure function of the set: it performs no
mutation. -/
theorem search_case_insensitive_matches (set : List JSStr) (query : JSStr)
    (hq : query ≠ []) :
    CacheManagement.search set query
      = set.filter (fun v => jsStartsWith (jsToLower v) (jsToLower query)) ∧
    (∀ x, x ∈ CacheManagement.search set query ↔
      x ∈ set ∧ jsStartsWith (jsToLower x) (jsToLower query) = true) ∧
    (CacheManagement.search set query).Sublist set ∧
    ((∀ x ∈ set, ¬ jsStartsWith (jsToLower x) (jsToLower query) = true) →
      CacheManagement.search set query = []) := by
  refine ⟨search_eq_filter set query, ?_, ?_, ?_⟩
  · intro x
    rw [search_eq_filter, List.mem_filter]
  · rw [search_eq_filter]
    exact List.filter_sublist set
  · intro h
    rw [search_eq_filter, List.filter_eq_nil_iff]
    exact h

/-- C2 witness: the spec's own example cache and query. -/
theorem search_case_insensitive_matches_witness :
    (jstr "ja" ≠ []) ∧
    (CacheManagement.search [jstr "Go", jstr "Java", jstr "JavaScript"] (jstr "ja")
        = [jstr "Java", jstr "JavaScript"] ∧
      CacheManagement.search [jstr "Go", jstr "Java", jstr "JavaScript"] (jstr "x")
        = []) :=
  ⟨by decide,
   (search_case_insensitive_matches [jstr "Go", jstr "Java", jstr "JavaScript"]
        (jstr "ja") (by decide)).1.trans (by decide),
   (search_case_insensitive_matches [jstr "Go", jstr "Java", jstr "JavaScript"]
        (jstr "x") (by decide)).1.trans (by decide)⟩

/-- C9: the empty query matches every entry (every string starts with the
empty string), so `search` on `""` returns the whole cache in its current
iteration order. -/
theorem search_empty_query_returns_all (set : List JSStr) :
    CacheManagement.search set [] = set := by
  rw [search_eq_filter]
  have : (fun v => jsStartsWith (jsToLower v) (jsToLower [])) = fun _ => true := by
    funext v
    exact jsStartsWith_nil _
  rw [this, List.filter_true]

/-! ### Coordinator path lemmas, shared by several claim theorems -/

theorem search_cache_hit_eq (st : CoordState) (v : JSStr) (remote : FetchOutcome)
    (h1 : jsTrim v ≠ []) (h2 : CacheManagement.search st.cacheSet (jsTrim v) ≠ []) :
    search st v remote = { st with searchCount := st.searchCount + 1 } := by
  have hlen : 0 < (CacheManagement.search st.cacheSet (jsTrim v)).length :=
    List.length_pos.mpr h2
  simp [search, h1, hlen]

theorem search_failure_eq (st : CoordState) (v : JSStr)
    (h1 : jsTrim v ≠ []) (h2 : CacheManagement.search st.cacheSet (jsTrim v) = []) :
    search st v FetchOutcome.failure
      = { st with
          searchCount := st.searchCount + 1
          fetchCount := st.fetchCount + 1
          errorMessage := "fetchData: The server is down or unreachable" } := by
  simp [search, h1, h2, fetchData, showErrorMessage, jsLengthGtZero]

theorem search_success_empty_eq (st : CoordState) (v : JSStr)
    (h1 : jsTrim v ≠ []) (h2 : CacheManagement.search st.cacheSet (jsTrim v) = []) :
    search st v (FetchOutcome.success [])
      = { st with searchCount := st.searchCount + 1, fetchCount := st.fetchCount + 1 } := by
  simp [search, h1, h2, fetchData, jsLengthGtZero]

/-- C3: when the trimmed input has a non-empty local search result, the
handler stops at the cache hit: no remote fetch, no cache mutation, no
rebuild signal — only the ghost search counter moves. -/
theorem cache_hit_short_circuits (st : CoordState) (v : JSStr) (remote : FetchOutcome)
    (h1 : jsTrim v ≠ []) (h2 : CacheManagement.search st.cacheSet (jsTrim v) ≠ []) :
    search st v remote = { st with searchCount := st.searchCount + 1 } ∧
    (search st v remote).fetchCount = st.fetchCount ∧
    (search st v remote).cacheSet = st.cacheSet ∧
    (search st v remote).rebuildCount = st.rebuildCount := by
  have h := search_cache_hit_eq st v remote h1 h2
  exact ⟨h, by rw [h], by rw [h], by rw [h]⟩

/-- C3 witness: a cache holding "Java" and the query "ja". -/
theorem cache_hit_short_circuits_witness :
    (jsTrim (jstr "ja") ≠ [] ∧
      CacheManagement.search [jstr "Java"] (jsTrim (jstr "ja")) ≠ []) ∧
    (search ⟨[jstr "Java"], "", 0, 0, 0⟩ (jstr "ja") FetchOutcome.failure).fetchCount = 0 :=
  ⟨⟨by decide, by decide⟩,
   (cache_hit_short_circuits ⟨[jstr "Java"], "", 0, 0, 0⟩ (jstr "ja")
      FetchOutcome.failure (by decide) (by decide)).2.1⟩

/-- C5: when the handler does fetch and the fetch fails, the handler sets
the fixed unreachable-server message, leaves the cache untouched (no
partial merge), fires no rebuild signal, and — since `fetchData` catches
every exception and the model is a total function — lets nothing
propagate to the caller. -/
theorem fetch_failure_isolated (st : CoordState) (v : JSStr)
    (h1 : jsTrim v ≠ []) (h2 : CacheManagement.search st.cacheSet (jsTrim v) = []) :
    search st v FetchOutcome.failure
      = { st with
          searchCount := st.searchCount + 1
          fetchCount := st.fetchCount + 1
          errorMessage := "fetchData: The server is down or unreachable" } ∧
    (search st v FetchOutcome.failure).cacheSet = st.cacheSet ∧
    (search st v FetchOutcome.failure).rebuildCount = st.rebuildCount ∧
    (search st v FetchOutcome.failure).errorMessage
      = "fetchData: The server is down or unreachable" := by
  have h := search_failure_eq st v h1 h2
  exact ⟨h, by rw [h], by rw [h], by rw [h]⟩

/-- C5 witness: an empty cache and the query "ja", with a failing fetch. -/
theorem fetch_failure_isolated_witness :
    (jsTrim (jstr "ja") ≠ [] ∧ CacheManagement.search [] (jsTrim (jstr "ja")) = []) ∧
    ((search ⟨[], "", 0, 0, 0⟩ (jstr "ja") FetchOutcome.failure).cacheSet = [] ∧
      (search ⟨[], "", 0, 0, 0⟩ (jstr "ja") FetchOutcome.failure).errorMessage
        = "fetchData: The server is down or unreachable") :=
  ⟨⟨by decide, by decide⟩,
   (fetch_failure_isolated ⟨[], "", 0, 0, 0⟩ (jstr "ja") (by decide) (by decide)).2.1,
   (fetch_failure_isolated ⟨[], "", 0, 0, 0⟩ (jstr "ja") (by decide) (by decide)).2.2.2⟩

/-- C6: when the fetch succeeds with an empty array, the handler neither
merges nor rebuilds: the cache, the rebuild counter and the error message
are all unchanged. -/
theorem fetch_empty_result_noop (st : CoordState) (v : JSStr)
    (h1 : jsTrim v ≠ []) (h2 : CacheManagement.search st.cacheSet (jsTrim v) = []) :
    search st v (FetchOutcome.success [])
      = { st with searchCount := st.searchCount + 1, fetchCount := st.fetchCount + 1 } ∧
    (search st v (FetchOutcome.success [])).cacheSet = st.cacheSet ∧
    (search st v (FetchOutcome.success [])).rebuildCount = st.rebuildCount ∧
    (search st v (FetchOutcome.success [])).errorMessage = st.errorMessage := by
  have h := search_success_empty_eq st v h1 h2
  exact ⟨h, by rw [h], by rw [h], by rw [h]⟩

/-- C6 witness: an empty cache, the query "ja", and a successful fetch
returning no names. -/
theorem fetch_empty_result_noop_witness :
    (jsTrim (jstr "ja") ≠ [] ∧ CacheManagement.search [] (jsTrim (jstr "ja")) = []) ∧
    ((search ⟨[], "", 0, 0, 0⟩ (jstr "ja") (FetchOutcome.success [])).cacheSet = [] ∧
      (search ⟨[], "", 0, 0, 0⟩ (jstr "ja") (FetchOutcome.success [])).rebuildCount = 0) :=
  ⟨⟨by decide, by decide⟩,
   (fetch_empty_result_noop ⟨[], "", 0, 0, 0⟩ (jstr "ja") (by decide) (by decide)).2.1,
   (fetch_empty_result_noop ⟨[], "", 0, 0, 0⟩ (jstr "ja") (by decide) (by decide)).2.2.1⟩

/-- C7: when the input trims to the empty string the handler returns at
once — the state is untouched: no cache search (the ghost search counter
does not move), no fetch, no message, no rebuild. -/
theorem empty_input_does_nothing (st : CoordState) (v : JSStr) (remote : FetchOutcome)
    (h : jsTrim v = []) :
    search st v remote = st := by
  simp [search, h]

/-- C7 witness: a whitespace-only input. -/
theorem empty_input_does_nothing_witness :
    jsTrim (jstr "  ") = [] ∧
    search ⟨[jstr "Java"], "", 0, 0, 0⟩ (jstr "  ") FetchOutcome.failure
      = ⟨[jstr "Java"], "", 0, 0, 0⟩ :=
  ⟨by decide,
   empty_input_does_nothing ⟨[jstr "Java"], "", 0, 0, 0⟩ (jstr "  ")
     FetchOutcome.failure (by decide)⟩

/-- C8: on failure `fetchData` resolves with the caught `Error` object
itself; the handler's `names.length > 0` test on that object is `false`
(`.length` of an `Error` is `undefined`, and `undefined > 0` is `false`),
so the failure path performs no merge and no rebuild and, the model being
total, raises nothing. -/
theorem fetch_error_returned_not_thrown (st : CoordState) (v : JSStr)
    (h1 : jsTrim v ≠ []) (h2 : CacheManagement.search st.cacheSet (jsTrim v) = []) :
    (∀ s : CoordState, (fetchData s FetchOutcome.failure).1 = JSValue.errObj) ∧
    jsLengthGtZero JSValue.errObj = false ∧
    (search st v FetchOutcome.failure).cacheSet = st.cacheSet ∧
    (search st v FetchOutcome.failure).rebuildCount = st.rebuildCount := by
  have h := search_failure_eq st v h1 h2
  exact ⟨fun s => rfl, rfl, by rw [h], by rw [h]⟩

/-- C8 witness: an empty cache and the query "ja". -/
theorem fetch_error_returned_not_thrown_witness :
    (jsTrim (jstr "ja") ≠ [] ∧ CacheManagement.search [] (jsTrim (jstr "ja")) = []) ∧
    ((fetchData ⟨[], "", 0, 0, 0⟩ FetchOutcome.failure).1 = JSValue.errObj ∧
      (search ⟨[], "", 0, 0, 0⟩ (jstr "ja") FetchOutcome.failure).rebuildCount = 0) :=
  ⟨⟨by decide, by decide⟩,
   (fetch_error_returned_not_thrown ⟨[], "", 0, 0, 0⟩ (jstr "ja")
      (by decide) (by decide)).1 ⟨[], "", 0, 0, 0⟩,
   (fetch_error_returned_not_thrown ⟨[], "", 0, 0, 0⟩ (jstr "ja")
      (by decide) (by decide)).2.2.2⟩

/-- C4: over a burst of invocations each arriving strictly less than
`wait` after the previous one, the debounced function executes the
wrapped handler exactly once, with the argument of the last invocation,
at the last invocation's time plus `wait`; every earlier invocation's
pending timer is cancelled before it can fire. -/
theorem debounce_burst_single_fire {α : Type} (wait : Nat) (calls : List (Nat × α))
    (hne : calls ≠ [])
    (hburst : calls.Chain' (fun p q => q.1 < p.1 + wait)) :
    debounce wait calls = [((calls.getLast hne).1 + wait, (calls.getLast hne).2)] := by
  revert hne hburst
  induction calls with
  | nil => intro hne _; exact absurd rfl hne
  | cons hd tl ih =>
      intro hne hburst
      obtain ⟨t, e⟩ := hd
      cases tl with
      | nil => simp [debounce, debounceRun]
      | cons hd' tl' =>
          obtain ⟨t', e'⟩ := hd'
          have hrel : t' < t + wait := (List.chain'_cons.mp hburst).1
          have hstep : debounce wait ((t, e) :: (t', e') :: tl')
              = debounce wait ((t', e') :: tl') := by
            simp only [debounce, debounceRun]
            rw [if_neg (by omega)]
          rw [hstep, ih (by simp) (List.chain'_cons.mp hburst).2]
          rfl

/-- C4 witness: the spec's burst with wait 250 at times 0, 50, 100. -/
theorem debounce_burst_single_fire_witness :
    ([(0, (1 : Nat)), (50, 2), (100, 3)] ≠ ([] : List (Nat × Nat))) ∧
    debounce 250 [(0, (1 : Nat)), (50, 2), (100, 3)] = [(350, 3)] :=
  ⟨by decide,
   (debounce_burst_single_fire 250 [(0, 1), (50, 2), (100, 3)]
      (by decide)
      (List.chain'_cons.mpr ⟨by omega,
        List.chain'_cons.mpr ⟨by omega, List.chain'_singleton _⟩⟩)).trans
    (by decide)⟩
